import Mathlib

/-!
# Verification of the document-analysis pipeline (colliers-legal backend)

Shallow embedding of the core services:
* `ComplianceService._split_into_paragraphs` (segmenter),
* `ComplianceService.analyze_document` / `_process_document_async`
  (session creation, caching, batch loop, progress counter),
* `ComplianceService._analyze_paragraph_with_retry` / `_analyze_paragraph`
  (retry/backoff policy),
* `ComplianceService.stop_analysis`, `ComplianceService.get_analysis_results`,
* `RuleSetService.get_rule_catalog` / `get_rules_by_numbers`
  (temporal rule filtering).

Python strings are modelled as `List Char`; dates and timestamps as `Nat`;
the database as explicit lists of records threaded through the operations.
-/

/-! ## Python string primitives -/

/-- The whitespace class used by Python's `str.strip()` and by `\s` in the
regular expressions of the segmenter (ASCII fragment). -/
def isPySpace (c : Char) : Bool :=
  c = ' ' || c = '\t' || c = '\n' || c = '\r' || c = '\x0b' || c = '\x0c'

/-- Python `str.strip()`: remove leading and trailing whitespace. -/
def pyStrip (s : List Char) : List Char :=
  (s.dropWhile isPySpace).rdropWhile isPySpace

theorem dropWhile_pyStrip (s : List Char) :
    (pyStrip s).dropWhile isPySpace = pyStrip s := by
  rw [List.dropWhile_eq_self_iff]
  intro hl
  have hpre := List.rdropWhile_prefix isPySpace (s.dropWhile isPySpace)
  have h0 : (pyStrip s).get ⟨0, hl⟩ =
      (s.dropWhile isPySpace).get ⟨0, lt_of_lt_of_le hl hpre.length_le⟩ := by
    simpa [List.get_eq_getElem] using hpre.getElem hl
  rw [h0]
  exact List.dropWhile_get_zero_not isPySpace s _

theorem pyStrip_idem (s : List Char) : pyStrip (pyStrip s) = pyStrip s := by
  rw [pyStrip, dropWhile_pyStrip, pyStrip]
  exact List.rdropWhile_idempotent _ _

/-! ## Segmenter: `ComplianceService._split_into_paragraphs`

The blank-line separator is the regex `\n\s*\n|\r\n\s*\r\n`; sentence
boundaries are `(?<=[.!?])\s+`.  `re.split` scans left to right for the
leftmost match; the greedy `\s*` backtracks to leave room for the trailing
newline of the pattern. -/

/-- Index of the last `'\n'` inside a whitespace run: the backtracking point
of the greedy `\s*` in `\n\s*\n`. -/
def lastNewlineIdx (l : List Char) : Option Nat :=
  ((l.enum.filter (fun p => p.2 == '\n')).map (fun p => p.1)).getLast?

/-- Index of the last `"\r\n"` pair inside a whitespace run: the backtracking
point of the greedy `\s*` in `\r\n\s*\r\n`. -/
def lastCrLfIdx (l : List Char) : Option Nat :=
  ((l.enum.filter (fun p => p.2 == '\r' && l.get? (p.1 + 1) == some '\n')).map
    (fun p => p.1)).getLast?

/-- Length of the separator-regex match starting at the head of `s`
(`None` if the regex does not match here). -/
def sepMatchLen : List Char → Option Nat
  | '\n' :: rest => (lastNewlineIdx (rest.takeWhile isPySpace)).map (· + 2)
  | '\r' :: '\n' :: rest => (lastCrLfIdx (rest.takeWhile isPySpace)).map (· + 4)
  | _ => none

/-- Scanner for `re.split(r'\n\s*\n|\r\n\s*\r\n', text)`; `acc` holds the
current piece reversed.  The scan consumes at least one character per step,
so `s.length` fuel suffices; the fuel-0 arm is unreachable from
`pySplitSep`. -/
def pySplitSepAux : Nat → List Char → List Char → List (List Char)
  | _, [], acc => [acc.reverse]
  | 0, _ :: _, acc => [acc.reverse]
  | fuel + 1, c :: cs, acc =>
    match sepMatchLen (c :: cs) with
    | some n => acc.reverse :: pySplitSepAux fuel (cs.drop (n - 1)) []
    | none => pySplitSepAux fuel cs (c :: acc)

/-- `re.split(r'\n\s*\n|\r\n\s*\r\n', text)`. -/
def pySplitSep (s : List Char) : List (List Char) :=
  pySplitSepAux s.length s []

/-- The lookbehind/whitespace test of `(?<=[.!?])\s+` at one position. -/
def sentBoundary (prev : Option Char) (c : Char) : Bool :=
  (prev == some '.' || prev == some '!' || prev == some '?') && isPySpace c

/-- Scanner for `re.split(r'(?<=[.!?])\s+', para)`; `prev` is the character
just before the scan position (for the lookbehind); fuel as in
`pySplitSepAux`. -/
def pySplitSentencesAux :
    Nat → List Char → List Char → Option Char → List (List Char)
  | _, [], acc, _ => [acc.reverse]
  | 0, _ :: _, acc, _ => [acc.reverse]
  | fuel + 1, c :: cs, acc, prev =>
    if sentBoundary prev c then
      let run := cs.takeWhile isPySpace
      acc.reverse ::
        pySplitSentencesAux fuel (cs.drop run.length) []
          (some ((c :: run).getLast (List.cons_ne_nil c run)))
    else
      pySplitSentencesAux fuel cs (c :: acc) (some c)

/-- `re.split(r'(?<=[.!?])\s+', para)`. -/
def pySplitSentences (s : List Char) : List (List Char) :=
  pySplitSentencesAux s.length s [] none

/-- The sentence-accumulation loop for paragraphs longer than 2000 chars:
flush `current` (stripped) once adding the next sentence would exceed 1500
characters; join with a single space otherwise; flush the remainder at the
end. -/
def accumulateSentences : List (List Char) → List Char → List (List Char)
  | [], current => if current.isEmpty then [] else [pyStrip current]
  | s :: rest, current =>
    if current.length + s.length > 1500 then
      (if current.isEmpty then [] else [pyStrip current]) ++
        accumulateSentences rest s
    else
      accumulateSentences rest (current ++ ' ' :: s)

/-- Per-span post-processing: spans over 2000 chars are re-split on sentence
boundaries; shorter spans are stripped as-is. -/
def splitPara (p : List Char) : List (List Char) :=
  if p.length > 2000 then accumulateSentences (pySplitSentences p) []
  else [pyStrip p]

/-- `ComplianceService._split_into_paragraphs`: blank-line split, long-span
sentence re-split, then drop empty spans. -/
def split_into_paragraphs (text : List Char) : List (List Char) :=
  (((pySplitSep text).map splitPara).flatten).filter (fun p => !p.isEmpty)

theorem accumulateSentences_strip (l : List (List Char)) (cur : List Char) :
    ∀ p ∈ accumulateSentences l cur, ∃ x, p = pyStrip x := by
  induction l generalizing cur with
  | nil =>
    intro p hp
    simp only [accumulateSentences] at hp
    split at hp
    · simp at hp
    · simp only [List.mem_singleton] at hp
      exact ⟨cur, hp⟩
  | cons s rest ih =>
    intro p hp
    simp only [accumulateSentences] at hp
    split at hp
    · rcases List.mem_append.mp hp with h | h
      · split at h
        · simp at h
        · simp only [List.mem_singleton] at h
          exact ⟨cur, h⟩
      · exact ih s p h
    · exact ih _ p hp

theorem splitPara_strip (x : List Char) :
    ∀ p ∈ splitPara x, ∃ y, p = pyStrip y := by
  intro p hp
  simp only [splitPara] at hp
  split at hp
  · exact accumulateSentences_strip _ _ p hp
  · simp only [List.mem_singleton] at hp
    exact ⟨x, hp⟩

/-- C10: every span returned by `_split_into_paragraphs` is non-empty and
equals its own trim (no leading/trailing whitespace), and the segmenter is a
pure function: identical inputs give identical output sequences. -/
theorem split_into_paragraphs_trimmed_nonempty_pure (t : List Char) :
    (∀ p ∈ split_into_paragraphs t, p ≠ [] ∧ pyStrip p = p) ∧
      split_into_paragraphs t = split_into_paragraphs t := by
  refine ⟨fun p hp => ?_, rfl⟩
  simp only [split_into_paragraphs, List.mem_filter, Bool.not_eq_true',
    List.isEmpty_eq_false_iff_exists_mem, List.mem_flatten, List.mem_map] at hp
  obtain ⟨⟨l, ⟨x, _, hl⟩, hpl⟩, hne⟩ := hp
  subst hl
  obtain ⟨y, hy⟩ := splitPara_strip x p hpl
  subst hy
  constructor
  · intro h
    rw [h] at hne
    simp at hne
  · exact pyStrip_idem y

/-! ## Session creation counts and batch scheduling
(`analyze_document` lines 53–69, `_process_document_async` lines 88–181) -/

/-- The qualification test used both for `total_paragraphs` and for storing a
span: trimmed length at least 50. -/
def qualifies (p : List Char) : Bool := 50 ≤ (pyStrip p).length

/-- `total_paragraphs` as computed at session creation:
`len([p for p in paragraphs if len(p.strip()) >= 50])`. -/
def totalParagraphs (text : List Char) : Nat :=
  ((split_into_paragraphs text).filter qualifies).length

/-- The paragraph rows `_process_document_async` stores from a span list
(index, content): spans with trimmed length below 50 are skipped. -/
def storedOf (paragraphs : List (List Char)) : List (Nat × List Char) :=
  paragraphs.enum.filter (fun ip => qualifies ip.2)

/-- The paragraph rows stored for a document text. -/
def storedParagraphs (text : List Char) : List (Nat × List Char) :=
  storedOf (split_into_paragraphs text)

theorem storedOf_length (paragraphs : List (List Char)) :
    (storedOf paragraphs).length = (paragraphs.filter qualifies).length := by
  rw [storedOf]
  conv_rhs => rw [← List.enum_map_snd paragraphs]
  rw [List.filter_map]
  simp only [List.length_map]
  rfl

theorem totalParagraphs_eq_stored (t : List Char) :
    totalParagraphs t = (storedParagraphs t).length := by
  rw [totalParagraphs, storedParagraphs, storedOf_length]

/-- The batch partition `paragraph_ids[i:i+batch_size]` for
`i in range(0, len(paragraph_ids), 20)`. -/
def batches20 {α : Type} : List α → List (List α)
  | [] => []
  | x :: xs => (x :: xs).take 20 :: batches20 ((x :: xs).drop 20)
termination_by l => l.length
decreasing_by
  simp only [List.length_drop, List.length_cons]; omega

theorem batches20_flatten {α : Type} (xs : List α) :
    (batches20 xs).flatten = xs := by
  match xs with
  | [] => rw [batches20]; rfl
  | x :: rest =>
    rw [batches20, List.flatten_cons, batches20_flatten ((x :: rest).drop 20)]
    exact List.take_append_drop 20 (x :: rest)
termination_by xs.length
decreasing_by
  simp only [List.length_drop, List.length_cons]; omega

/-- C4: for every document text, `total_paragraphs` recorded at creation
equals the number of segmented spans with trimmed length ≥ 50, which equals
the number of paragraph units actually scheduled (the concatenation of all
batches is exactly the stored qualifying spans), and a span of trimmed length
< 50 is never among the scheduled units. -/
theorem total_paragraphs_eq_scheduled (t : List Char) :
    totalParagraphs t = (storedParagraphs t).length ∧
      (batches20 (storedParagraphs t)).flatten = storedParagraphs t ∧
      ∀ u ∈ (batches20 (storedParagraphs t)).flatten, 50 ≤ (pyStrip u.2).length := by
  refine ⟨totalParagraphs_eq_stored t, batches20_flatten _, ?_⟩
  intro u hu
  rw [batches20_flatten] at hu
  have := (List.mem_filter.mp hu).2
  simpa [qualifies, storedParagraphs, storedOf] using this

/-! ## Batch loop and progress counter
(`_process_document_async` lines 129–181) -/

/-- Paragraph ids recorded as failed for one batch: on a batch timeout the
whole batch, otherwise the units whose task raised. -/
def batchFailures (batch : List Nat) (oc : Option (List Bool)) : List Nat :=
  match oc with
  | none => batch
  | some ok => ((batch.zip ok).filter (fun pf => !pf.2)).map (fun pf => pf.1)

/-- The batch loop: before each batch re-read the status (`stopped k` = the
session was found `'stopped'` before batch `k`, halting the loop); otherwise
run the batch (outcome `oc k`), advance `processed` by the batch length and
persist it.  Returns the sequence of persisted `paragraphs_processed` values
and the accumulated failed paragraph ids. -/
def processBatchesAux (batches : List (List Nat)) (k : Nat) (processed : Nat)
    (stopped : Nat → Bool) (oc : Nat → Option (List Bool)) :
    List Nat × List Nat :=
  match batches with
  | [] => ([], [])
  | b :: rest =>
    if stopped k then ([], [])
    else
      let r := processBatchesAux rest (k + 1) (processed + b.length) stopped oc
      ((processed + b.length) :: r.1, batchFailures b (oc k) ++ r.2)

/-- The successive values written to `paragraphs_processed` during background
execution of a session with the given paragraph ids. -/
def progressWrites (ids : List Nat) (stopped : Nat → Bool)
    (oc : Nat → Option (List Bool)) : List Nat :=
  (processBatchesAux (batches20 ids) 0 0 stopped oc).1

/-- Partial sums of attempted batch sizes starting from `acc`: the value the
counter holds after each batch if no stop intervenes. -/
def attemptSums : List (List Nat) → Nat → List Nat
  | [], _ => []
  | b :: rest, acc => (acc + b.length) :: attemptSums rest (acc + b.length)

theorem processBatchesAux_chain (batches : List (List Nat)) (k p : Nat)
    (stopped : Nat → Bool) (oc : Nat → Option (List Bool)) :
    List.Chain' (· ≤ ·) (p :: (processBatchesAux batches k p stopped oc).1) := by
  induction batches generalizing k p with
  | nil => simp [processBatchesAux]
  | cons b rest ih =>
    rw [processBatchesAux]
    split
    · simp
    · exact List.Chain'.cons (Nat.le_add_right p b.length) (ih (k + 1) (p + b.length))

theorem processBatchesAux_writes_sums (batches : List (List Nat)) (k p : Nat)
    (stopped : Nat → Bool) (oc : Nat → Option (List Bool)) :
    (processBatchesAux batches k p stopped oc).1 <+: attemptSums batches p := by
  induction batches generalizing k p with
  | nil => simp [processBatchesAux, attemptSums]
  | cons b rest ih =>
    rw [processBatchesAux, attemptSums]
    split
    · exact List.nil_prefix
    · exact List.cons_prefix_cons.mpr ⟨rfl, ih (k + 1) (p + b.length)⟩

theorem processBatchesAux_oc_irrelevant (batches : List (List Nat)) (k p : Nat)
    (stopped : Nat → Bool) (oc oc' : Nat → Option (List Bool)) :
    (processBatchesAux batches k p stopped oc).1 =
      (processBatchesAux batches k p stopped oc').1 := by
  induction batches generalizing k p with
  | nil => rfl
  | cons b rest ih =>
    rw [processBatchesAux, processBatchesAux]
    split
    · rfl
    · simp only [List.cons.injEq, true_and]
      exact ih (k + 1) (p + b.length)

/-- C6: over the lifetime of a session, the persisted values of
`paragraphs_processed` (starting from the initial 0) never decrease; they are
a prefix of the partial sums of attempted batch sizes (each batch advances
the counter by the number of units attempted), and they do not depend on
which units succeeded, failed, or were cut off by the batch timeout. -/
theorem paragraphs_processed_monotone (ids : List Nat) (stopped : Nat → Bool)
    (oc : Nat → Option (List Bool)) :
    List.Pairwise (· ≤ ·) (0 :: progressWrites ids stopped oc) ∧
      progressWrites ids stopped oc <+: attemptSums (batches20 ids) 0 ∧
      ∀ oc', progressWrites ids stopped oc = progressWrites ids stopped oc' := by
  refine ⟨?_, processBatchesAux_writes_sums _ _ _ _ _,
    fun oc' => processBatchesAux_oc_irrelevant _ _ _ _ _ _⟩
  rw [← List.chain'_iff_pairwise]
  exact processBatchesAux_chain _ _ _ _ _


/-! ## Retry and backoff policy
(`_analyze_paragraph` lines 301–325, `_analyze_paragraph_with_retry`
lines 256–287)

The Python loops run `for attempt in range(max_retries)` with `max_retries
= 2` and test `attempt == max_retries - 1` for the final attempt; they are
embedded structurally on the number of remaining attempts (`max_retries -
attempt`), so the final attempt is the one with a single remaining. -/

/-- Outcome of one call of the classification oracle
(`llm_service.classify_paragraph` under `asyncio.wait_for`). -/
inductive OracleOut where
  | ok (rules : List String)
  | timeout
  | err (msg : String)

/-- Trace of the classification retry loop: final result, number of oracle
calls made, and the backoff sleeps (in seconds) performed between attempts. -/
structure RunTrace where
  result : Except String (List String)
  calls : Nat
  sleeps : List Nat

/-- The classification retry loop of `_analyze_paragraph` (step 2): on
`asyncio.TimeoutError` retry after `2.0 * (attempt + 1)` seconds unless this
was the final attempt (then raise an error whose message carries the word
`timeout`); on any other exception retry with the same backoff unless this
was the final attempt (then re-raise). -/
def classifyLoop (oracle : Nat → OracleOut) (attempt : Nat) :
    Nat → RunTrace
  | 0 => ⟨.error "loop not entered", 0, []⟩
  | 1 =>
    match oracle attempt with
    | .ok rules => ⟨.ok rules, 1, []⟩
    | .timeout =>
      ⟨.error "Classification failed after 2 attempts due to timeout", 1, []⟩
    | .err m => ⟨.error m, 1, []⟩
  | remaining + 2 =>
    match oracle attempt with
    | .ok rules => ⟨.ok rules, 1, []⟩
    | .timeout =>
      let r := classifyLoop oracle (attempt + 1) (remaining + 1)
      ⟨r.result, r.calls + 1, 2 * (attempt + 1) :: r.sleeps⟩
    | .err _ =>
      let r := classifyLoop oracle (attempt + 1) (remaining + 1)
      ⟨r.result, r.calls + 1, 2 * (attempt + 1) :: r.sleeps⟩

/-- ASCII lowercasing, mirroring `str.lower()` on the messages involved. -/
def pyToLower (c : Char) : Char :=
  if 'A' ≤ c ∧ c ≤ 'Z' then Char.ofNat (c.toNat + 32) else c

/-- `needle` occurs as a contiguous substring of the haystack. -/
def containsSub (needle : List Char) : List Char → Bool
  | [] => needle.isEmpty
  | c :: cs => needle.isPrefixOf (c :: cs) || containsSub needle cs

/-- The transient-error test of `_analyze_paragraph_with_retry`:
`'timeout' in str(e).lower() or 'rate' in ... or '429' in ...`. -/
def hasTransientSignature (msg : String) : Bool :=
  let m := msg.toList.map pyToLower
  containsSub "timeout".toList m || containsSub "rate".toList m ||
    containsSub "429".toList m

/-- Trace of the per-unit wrapper: final result, number of whole-unit
attempts, and backoff sleeps (seconds). -/
structure UnitTrace where
  result : Except String Unit
  unitAttempts : Nat
  sleeps : List Nat

/-- The per-unit retry loop of `_analyze_paragraph_with_retry`: a failed unit
attempt whose error message has a transient signature is retried after
`3.0 * (attempt + 1)` then `2 ** attempt` seconds, unless this was the final
attempt; any other error is re-raised immediately. -/
def retryLoop (unit : Nat → Except String Unit) (attempt : Nat) :
    Nat → UnitTrace
  | 0 => ⟨.error "loop not entered", 0, []⟩
  | 1 =>
    match unit attempt with
    | .ok _ => ⟨.ok (), 1, []⟩
    | .error e => ⟨.error e, 1, []⟩
  | remaining + 2 =>
    match unit attempt with
    | .ok _ => ⟨.ok (), 1, []⟩
    | .error e =>
      if hasTransientSignature e then
        let r := retryLoop unit (attempt + 1) (remaining + 1)
        ⟨r.result, r.unitAttempts + 1,
          3 * (attempt + 1) :: 2 ^ attempt :: r.sleeps⟩
      else ⟨.error e, 1, []⟩

/-- C7 counterexample: a non-transient (fatal) classification-oracle error
does not propagate immediately — `_analyze_paragraph` retries it once.  With
an oracle that always raises a fatal error (message without timeout /
rate-limit / 429 signature), the oracle is called twice, with a 2-second
backoff in between, before the error propagates. -/
theorem fatal_error_retried_counterexample :
    (classifyLoop (fun _ => OracleOut.err "invalid api key") 0 2).calls = 2 ∧
      (classifyLoop (fun _ => OracleOut.err "invalid api key") 0 2).sleeps = [2] ∧
      (classifyLoop (fun _ => OracleOut.err "invalid api key") 0 2).result =
        Except.error "invalid api key" ∧
      hasTransientSignature "invalid api key" = false :=
  ⟨rfl, rfl, rfl, by decide⟩

/-- C7 (amended): within `_analyze_paragraph`, a classification failure —
timeout or not — is retried up to 2 attempts total with linear backoff
(2 s × attempt number); after both attempts time out, the propagated error
message carries the timeout signature.  The distinction between transient
and fatal errors is made only by the per-unit wrapper
`_analyze_paragraph_with_retry`: a unit failure with a transient signature
(timeout / rate-limit / 429) is re-run, up to 2 unit attempts, with backoff
3 s × attempt number plus 2^attempt, while a non-transient unit failure
propagates immediately after a single unit attempt. -/
theorem retry_policy_amended (oracle : Nat → OracleOut)
    (unit : Nat → Except String Unit) :
    ((∃ r, oracle 0 = .ok r) →
      (classifyLoop oracle 0 2).calls = 1 ∧ (classifyLoop oracle 0 2).sleeps = []) ∧
    ((∀ r, oracle 0 ≠ .ok r) →
      (classifyLoop oracle 0 2).calls = 2 ∧ (classifyLoop oracle 0 2).sleeps = [2]) ∧
    (oracle 0 = .timeout → oracle 1 = .timeout →
      (classifyLoop oracle 0 2).result =
        Except.error "Classification failed after 2 attempts due to timeout" ∧
      hasTransientSignature "Classification failed after 2 attempts due to timeout" = true) ∧
    (∀ e, unit 0 = .error e → hasTransientSignature e = false →
      (retryLoop unit 0 2).result = .error e ∧
      (retryLoop unit 0 2).unitAttempts = 1 ∧ (retryLoop unit 0 2).sleeps = []) ∧
    (∀ e, unit 0 = .error e → hasTransientSignature e = true →
      (retryLoop unit 0 2).unitAttempts = 2 ∧
      (retryLoop unit 0 2).sleeps = [3, 1]) := by
  refine ⟨?_, ?_, ?_, ?_, ?_⟩
  · rintro ⟨r, hr⟩
    simp [classifyLoop, hr]
  · intro h
    rcases ho : oracle 0 with r | _ | m
    · exact absurd ho (h r)
    · rcases h1 : oracle 1 with r' | _ | m' <;>
        simp [classifyLoop, ho, h1]
    · rcases h1 : oracle 1 with r' | _ | m' <;>
        simp [classifyLoop, ho, h1]
  · intro h0 h1
    refine ⟨?_, by decide⟩
    simp [classifyLoop, h0, h1]
  · intro e he hsig
    simp [retryLoop, he, hsig]
  · intro e he hsig
    rcases h1 : unit 1 with u | e' <;>
      simp [retryLoop, he, hsig, h1]

/-- Witness for the amended retry policy at concrete oracle behaviors: an
always-timing-out oracle is called twice, and a rate-limited unit is re-run
for a second unit attempt. -/
theorem retry_policy_amended_witness :
    (classifyLoop (fun _ => OracleOut.timeout) 0 2).calls = 2 ∧
      (retryLoop (fun _ => Except.error "Rate limit hit") 0 2).unitAttempts = 2 :=
  ⟨((retry_policy_amended (fun _ => OracleOut.timeout)
        (fun _ => Except.error "Rate limit hit")).2.1
      (fun r h => OracleOut.noConfusion h)).1,
    ((retry_policy_amended (fun _ => OracleOut.timeout)
        (fun _ => Except.error "Rate limit hit")).2.2.2.2 "Rate limit hit" rfl
      (by decide)).1⟩

/-! ## Temporal rule filtering
(`RuleSetService.get_rule_catalog` lines 415–468,
`get_rules_by_numbers` lines 480–512) -/

/-- A row of the `rules` table (fields used by the catalog queries; dates as
day ordinals). -/
structure Rule where
  rule_set_id : Nat
  rule_number : String
  rule_title : String
  summary : String
  category : String
  rulebook_hierarchy : Option String
  rule_text : String
  effective_start_date : Option Nat
  effective_end_date : Option Nat
  is_current : Bool
deriving DecidableEq

/-- The WHERE clause of `get_rule_catalog`: rule-set match plus, with a
filter date, `(start is null or start <= d) and (end is null or end > d)`;
without one, `end is null` by default (`include_superseded=False`) or
`is_current` when superseded rules are included. -/
def catalogWhere (rule_set_id : Nat) (filter_date : Option Nat)
    (include_superseded : Bool) (r : Rule) : Bool :=
  r.rule_set_id == rule_set_id &&
    match filter_date with
    | some d =>
      (match r.effective_start_date with
       | none => true
       | some s => decide (s ≤ d)) &&
      (match r.effective_end_date with
       | none => true
       | some e => decide (d < e))
    | none =>
      if include_superseded then r.is_current
      else r.effective_end_date.isNone

/-- `RuleSetService.get_rule_catalog`: the rows selected for the lightweight
catalog (the code then projects number/title/summary/category/hierarchy/
dates/is_current off each row). -/
def get_rule_catalog (db : List Rule) (rule_set_id : Nat)
    (filter_date : Option Nat) (include_superseded : Bool) : List Rule :=
  db.filter (catalogWhere rule_set_id filter_date include_superseded)

/-- The WHERE clause of `get_rules_by_numbers`: rule-set match, requested
number, and with a filter date `(start <= d or start is null) and
(end >= d or end is null)`. -/
def rulesByNumbersWhere (rule_set_id : Nat) (rule_numbers : List String)
    (filter_date : Option Nat) (r : Rule) : Bool :=
  r.rule_set_id == rule_set_id && rule_numbers.contains r.rule_number &&
    match filter_date with
    | some d =>
      (match r.effective_start_date with
       | none => true
       | some s => decide (s ≤ d)) &&
      (match r.effective_end_date with
       | none => true
       | some e => decide (d ≤ e))
    | none => true

/-- `RuleSetService.get_rules_by_numbers`: the rows resolved to full rule
records for the requested numbers. -/
def get_rules_by_numbers (db : List Rule) (rule_set_id : Nat)
    (rule_numbers : List String) (filter_date : Option Nat) : List Rule :=
  db.filter (rulesByNumbersWhere rule_set_id rule_numbers filter_date)

/-- C1: with an as-of date `d`, the catalog includes a rule iff it belongs to
the rule set and `(start is null or start ≤ d)` and `(end is null or
end > d)`; with the as-of date omitted (default `include_superseded =
False`), iff its end date is null — and in both cases the selection predicate
never consults the `is_current` flag. -/
theorem get_rule_catalog_temporal_filter (db : List Rule) (rsid d : Nat)
    (r : Rule) :
    (r ∈ get_rule_catalog db rsid (some d) false ↔
      r ∈ db ∧ r.rule_set_id = rsid ∧
        (r.effective_start_date = none ∨
          ∃ s, r.effective_start_date = some s ∧ s ≤ d) ∧
        (r.effective_end_date = none ∨
          ∃ e, r.effective_end_date = some e ∧ d < e)) ∧
    (r ∈ get_rule_catalog db rsid none false ↔
      r ∈ db ∧ r.rule_set_id = rsid ∧ r.effective_end_date = none) ∧
    (∀ b, catalogWhere rsid (some d) false { r with is_current := b } =
        catalogWhere rsid (some d) false r ∧
      catalogWhere rsid none false { r with is_current := b } =
        catalogWhere rsid none false r) ∧
    (∀ b, get_rule_catalog db rsid (some d) b =
        get_rule_catalog db rsid (some d) false) := by
  refine ⟨?_, ?_, fun b => ⟨rfl, rfl⟩, fun b => rfl⟩
  · rw [get_rule_catalog, List.mem_filter, catalogWhere]
    rcases hs : r.effective_start_date with _ | s <;>
      rcases he : r.effective_end_date with _ | e <;>
        simp [hs, he]
  · rw [get_rule_catalog, List.mem_filter, catalogWhere]
    simp [Option.isNone_iff_eq_none]

/-- C3 counterexample: the resolve operation does not apply the same
temporal filter as the catalog.  For a rule whose effective-end date equals
the as-of date exactly (end = d = 100), `get_rules_by_numbers` returns the
rule while `get_rule_catalog` excludes it. -/
theorem resolve_not_same_filter_counterexample :
    get_rules_by_numbers
        [⟨1, "R1", "t", "s", "c", none, "text", none, some 100, false⟩]
        1 ["R1"] (some 100) =
      [⟨1, "R1", "t", "s", "c", none, "text", none, some 100, false⟩] ∧
    get_rule_catalog
        [⟨1, "R1", "t", "s", "c", none, "text", none, some 100, false⟩]
        1 (some 100) false = [] :=
  ⟨rfl, rfl⟩

/-- C3 (amended): with an as-of date `d`, `get_rules_by_numbers` returns full
records for exactly those requested rule numbers in the rule set satisfying
`(start is null or start ≤ d)` and `(end is null or end ≥ d)` — the end-date
comparison is inclusive, unlike the catalog's strict `end > d`, so a rule
whose end date equals `d` exactly is included by resolve although the
catalog excludes it. -/
theorem get_rules_by_numbers_temporal_filter (db : List Rule) (rsid d : Nat)
    (nums : List String) (r : Rule) :
    r ∈ get_rules_by_numbers db rsid nums (some d) ↔
      r ∈ db ∧ r.rule_set_id = rsid ∧ r.rule_number ∈ nums ∧
        (r.effective_start_date = none ∨
          ∃ s, r.effective_start_date = some s ∧ s ≤ d) ∧
        (r.effective_end_date = none ∨
          ∃ e, r.effective_end_date = some e ∧ d ≤ e) := by
  rw [get_rules_by_numbers, List.mem_filter, rulesByNumbersWhere]
  rcases hs : r.effective_start_date with _ | s <;>
    rcases he : r.effective_end_date with _ | e <;>
      simp [hs, he, and_assoc]

/-! ## Session store (`DocumentAnalysis`, `DocumentParagraph`,
`ComplianceIssue`, `AnalysisCache` rows)

The MD5 content hash `md5(f"{document_text}:{rule_set_id}:{date_str}")` is
modelled by its preimage triple (document text, rule-set id, effective
date), and the cache key `f"doc_analysis:{document_hash}"` by the same
triple. -/

/-- A `document_analyses` row. -/
structure AnalysisRec where
  id : Nat
  session_id : String
  title : Option String
  rule_set_id : Nat
  document_text : List Char
  document_hash : List Char × Nat × Option Nat
  total_paragraphs : Nat
  paragraphs_processed : Nat
  analyzed_by : String
  analysis_status : String
  created_at : Nat
  completed_at : Option Nat
deriving DecidableEq

/-- A `document_paragraphs` row. -/
structure ParagraphRec where
  id : Nat
  document_id : Nat
  paragraph_index : Nat
  content : List Char
  applicable_rules : Option (List String)
  classification_confidence : Option ℚ
deriving DecidableEq

/-- A `compliance_issues` row. -/
structure IssueRec where
  id : Nat
  document_id : Nat
  paragraph_id : Option Nat
  rule_number : String
  rule_title : String
  rule_date : String
  severity : String
  issue_type : String
  description : String
  current_text : Option String
  required_text : Option String
  suggested_fix : Option String
  highlight_start : Option Nat
  highlight_end : Option Nat
deriving DecidableEq

/-! ## Stop protocol (`ComplianceService.stop_analysis` lines 560–586) -/

/-- `stop_analysis`: select the session owned by the caller with status
`'processing'`; if none, return `False`; otherwise set its status to
`'stopped'` with a completion timestamp and return `True`. -/
def stop_analysis (db : List AnalysisRec) (session_id user_id : String)
    (now : Nat) : Bool × List AnalysisRec :=
  match db.find? (fun a => a.session_id == session_id &&
      a.analyzed_by == user_id && a.analysis_status == "processing") with
  | none => (false, db)
  | some a =>
    (true, db.map fun s =>
      if s.id == a.id then
        { s with analysis_status := "stopped", completed_at := some now }
      else s)

/-- C5: `stop_analysis` returns `True` iff the store holds a session with
this id owned by the caller in status `'processing'`; on success that
session becomes `'stopped'` with a completion timestamp and sessions with
other ids are untouched; on failure the store is unchanged; and a second
stop after a successful one returns `False` (stop is terminal and
idempotent).  Uniqueness of primary keys and session ids is the schema
invariant (`id` primary key, `session_id` unique). -/
theorem stop_analysis_spec (db : List AnalysisRec) (sid uid : String)
    (now now' : Nat) (hid : (db.map AnalysisRec.id).Nodup)
    (hsid : (db.map AnalysisRec.session_id).Nodup) :
    ((stop_analysis db sid uid now).1 = true ↔
      ∃ a ∈ db, a.session_id = sid ∧ a.analyzed_by = uid ∧
        a.analysis_status = "processing") ∧
    ((stop_analysis db sid uid now).1 = false →
      (stop_analysis db sid uid now).2 = db) ∧
    (∀ a ∈ db, a.session_id = sid → a.analyzed_by = uid →
      a.analysis_status = "processing" →
      { a with analysis_status := "stopped", completed_at := some now } ∈
        (stop_analysis db sid uid now).2) ∧
    (∀ b ∈ db, b.session_id ≠ sid → b ∈ (stop_analysis db sid uid now).2) ∧
    ((stop_analysis db sid uid now).1 = true →
      (stop_analysis (stop_analysis db sid uid now).2 sid uid now').1 = false) := by
  have hinj_id := List.inj_on_of_nodup_map hid
  have hinj_sid := List.inj_on_of_nodup_map hsid
  rcases hfind : db.find? (fun a => a.session_id == sid &&
      a.analyzed_by == uid && a.analysis_status == "processing") with _ | a
  · have hnone := List.find?_eq_none.mp hfind
    refine ⟨?_, ?_, ?_, ?_, ?_⟩
    · rw [stop_analysis, hfind]
      constructor
      · intro h
        exact absurd h (by simp)
      · rintro ⟨a, ha, h1, h2, h3⟩
        exact absurd (by simp [h1, h2, h3] : _ = true) (hnone a ha)
    · intro _
      rw [stop_analysis, hfind]
    · intro a ha h1 h2 h3
      exact absurd (by simp [h1, h2, h3] : _ = true) (hnone a ha)
    · intro b hb _
      rw [stop_analysis, hfind]
      exact hb
    · intro htrue
      rw [stop_analysis, hfind] at htrue
      exact absurd htrue (by simp)
  · have ha : a ∈ db := List.mem_of_find?_eq_some hfind
    have hpa := List.find?_some hfind
    simp only [Bool.and_eq_true, beq_iff_eq] at hpa
    obtain ⟨⟨hpa1, hpa2⟩, hpa3⟩ := hpa
    refine ⟨?_, ?_, ?_, ?_, ?_⟩
    · rw [stop_analysis, hfind]
      simp only [true_iff]
      exact ⟨a, ha, hpa1, hpa2, hpa3⟩
    · intro hfalse
      rw [stop_analysis, hfind] at hfalse
      exact absurd hfalse (by simp)
    · intro a' ha' h1 h2 h3
      have : a' = a := hinj_sid ha' ha (by rw [h1, hpa1])
      subst this
      rw [stop_analysis, hfind]
      have := List.mem_map_of_mem (fun s : AnalysisRec =>
        if s.id == a'.id then
          { s with analysis_status := "stopped", completed_at := some now }
        else s) ha'
      simpa using this
    · intro b hb hbsid
      have hbne : b ≠ a := fun h => hbsid (by rw [h, hpa1])
      have hbid : b.id ≠ a.id := fun h => hbne (hinj_id hb ha h)
      rw [stop_analysis, hfind]
      have := List.mem_map_of_mem (fun s : AnalysisRec =>
        if s.id == a.id then
          { s with analysis_status := "stopped", completed_at := some now }
        else s) hb
      simpa [hbid] using this
    · intro _
      have hinner : (stop_analysis db sid uid now).2 = db.map (fun s : AnalysisRec =>
          if s.id == a.id then
            { s with analysis_status := "stopped", completed_at := some now }
          else s) := by
        rw [stop_analysis, hfind]
      rw [hinner]
      rcases hfind2 : (db.map fun s : AnalysisRec =>
          if s.id == a.id then
            { s with analysis_status := "stopped", completed_at := some now }
          else s).find? (fun x => x.session_id == sid &&
            x.analyzed_by == uid && x.analysis_status == "processing")
        with _ | x
      · rw [stop_analysis, hfind2]
      · exfalso
        have hx := List.find?_some hfind2
        have hxmem := List.mem_of_find?_eq_some hfind2
        simp only [Bool.and_eq_true, beq_iff_eq] at hx
        obtain ⟨⟨hx1, _⟩, hx3⟩ := hx
        obtain ⟨s, hs, hsx⟩ := List.mem_map.mp hxmem
        by_cases hsid_eq : s.id = a.id
        · rw [if_pos (by simpa using hsid_eq)] at hsx
          rw [← hsx] at hx3
          simp at hx3
        · rw [if_neg (by simpa using hsid_eq)] at hsx
          subst hsx
          exact hsid_eq (congrArg AnalysisRec.id (hinj_sid hs ha (by rw [hx1, hpa1])))

/-- C5 witness: on a store holding one processing session owned by `"u"`,
stopping succeeds, and a second stop of the same session fails. -/
theorem stop_analysis_witness :
    (stop_analysis
        [⟨1, "s", none, 1, [], ([], 1, none), 0, 0, "u", "processing", 0, none⟩]
        "s" "u" 5).1 = true ∧
      (stop_analysis
          (stop_analysis
            [⟨1, "s", none, 1, [], ([], 1, none), 0, 0, "u", "processing", 0, none⟩]
            "s" "u" 5).2 "s" "u" 6).1 = false := by
  have h := stop_analysis_spec
    [⟨1, "s", none, 1, [], ([], 1, none), 0, 0, "u", "processing", 0, none⟩]
    "s" "u" 5 6 (by decide) (by decide)
  have h1 : (stop_analysis
      [⟨1, "s", none, 1, [], ([], 1, none), 0, 0, "u", "processing", 0, none⟩]
      "s" "u" 5).1 = true :=
    h.1.mpr ⟨_, List.mem_singleton.mpr rfl, rfl, rfl, rfl⟩
  exact ⟨h1, h.2.2.2.2 h1⟩

/-! ## Result retrieval (`ComplianceService.get_analysis_results`
lines 403–469) -/

/-- A rendered issue dict. -/
structure IssueOut where
  rule_number : String
  rule_title : String
  rule_date : String
  severity : String
  issue_type : String
  description : String
  current_text : Option String
  required_text : Option String
  suggested_fix : Option String
  highlight_start : Option Nat
  highlight_end : Option Nat
deriving DecidableEq

/-- The projection of an issue row onto its rendered dict. -/
def renderIssue (i : IssueRec) : IssueOut :=
  ⟨i.rule_number, i.rule_title, i.rule_date, i.severity, i.issue_type,
    i.description, i.current_text, i.required_text, i.suggested_fix,
    i.highlight_start, i.highlight_end⟩

/-- A rendered paragraph dict. -/
structure ParagraphOut where
  index : Nat
  content : List Char
  applicable_rules : List String
  issues : List IssueOut
deriving DecidableEq

/-- The snapshot returned by `get_analysis_results`. -/
structure ResultsOut where
  session_id : String
  status : String
  created_at : Nat
  completed_at : Option Nat
  total_paragraphs : Nat
  paragraphs_processed : Nat
  progress_percentage : ℚ
  paragraphs : List ParagraphOut
  title : Option String
  rule_set_id : Nat
deriving DecidableEq

/-- Python `round(x, 1)`. -/
def round1 (x : ℚ) : ℚ := ((round (x * 10) : ℤ) : ℚ) / 10

/-- `get_analysis_results`: look up the session by id; fetch its paragraphs
ordered by `paragraph_index` and its issues grouped by paragraph; return the
snapshot whose paragraph list holds only paragraphs with a non-null
`applicable_rules`; progress percentage is
`round(processed / total * 100 if total > 0 else 0, 1)`. -/
def get_analysis_results (analyses : List AnalysisRec)
    (paras : List ParagraphRec) (issues : List IssueRec)
    (session_id : String) : Option ResultsOut :=
  match analyses.find? (fun a => a.session_id == session_id) with
  | none => none
  | some analysis =>
    let plist := List.insertionSort
      (fun p q : ParagraphRec => p.paragraph_index ≤ q.paragraph_index)
      (paras.filter (fun p => p.document_id == analysis.id))
    let docIssues := issues.filter (fun i => i.document_id == analysis.id)
    some
      { session_id := analysis.session_id
        status := analysis.analysis_status
        created_at := analysis.created_at
        completed_at := analysis.completed_at
        total_paragraphs := analysis.total_paragraphs
        paragraphs_processed := analysis.paragraphs_processed
        progress_percentage := round1
          (if 0 < analysis.total_paragraphs then
            (analysis.paragraphs_processed : ℚ) /
              (analysis.total_paragraphs : ℚ) * 100
          else 0)
        paragraphs := (plist.filter (fun p => p.applicable_rules.isSome)).map
          (fun p =>
            { index := p.paragraph_index
              content := p.content
              applicable_rules := p.applicable_rules.getD []
              issues := (docIssues.filter
                (fun i => i.paragraph_id == some p.id)).map renderIssue })
        title := analysis.title
        rule_set_id := analysis.rule_set_id }

/-- C8: for an existing session, the returned paragraph list holds exactly
the stored paragraphs of that session whose `applicable_rules` is non-null —
a paragraph with null `applicable_rules` never appears — and the returned
paragraphs are ordered by paragraph index. -/
theorem get_results_partial_visibility (analyses : List AnalysisRec)
    (paras : List ParagraphRec) (issues : List IssueRec) (sid : String)
    (res : ResultsOut)
    (h : get_analysis_results analyses paras issues sid = some res) :
    ∃ a ∈ analyses, a.session_id = sid ∧
      (∀ q ∈ res.paragraphs, ∃ p ∈ paras, p.document_id = a.id ∧
        p.applicable_rules ≠ none ∧ q.index = p.paragraph_index ∧
        q.content = p.content ∧
        q.applicable_rules = p.applicable_rules.getD []) ∧
      (∀ p ∈ paras, p.document_id = a.id → p.applicable_rules ≠ none →
        ∃ q ∈ res.paragraphs, q.index = p.paragraph_index ∧
          q.content = p.content) ∧
      List.Pairwise (· ≤ ·) (res.paragraphs.map ParagraphOut.index) := by
  rcases hfind : analyses.find? (fun a => a.session_id == sid) with _ | a
  · rw [get_analysis_results, hfind] at h
    exact absurd h (by simp)
  · have ha : a ∈ analyses := List.mem_of_find?_eq_some hfind
    have hasid : a.session_id = sid := by
      have := List.find?_some hfind
      simpa using this
    rw [get_analysis_results, hfind, Option.some_inj] at h
    subst h
    refine ⟨a, ha, hasid, ?_, ?_, ?_⟩
    · intro q hq
      simp only [List.mem_map] at hq
      obtain ⟨p, hp, hqp⟩ := hq
      have hp2 := List.mem_filter.mp hp
      have hp3 := (List.mem_insertionSort _).mp hp2.1
      have hp4 := List.mem_filter.mp hp3
      refine ⟨p, hp4.1, by simpa using hp4.2, ?_, ?_, ?_, ?_⟩
      · exact Option.isSome_iff_ne_none.mp hp2.2
      · rw [← hqp]
      · rw [← hqp]
      · rw [← hqp]
    · intro p hp hdoc hcls
      refine ⟨_, List.mem_map_of_mem _ (List.mem_filter.mpr
        ⟨(List.mem_insertionSort _).mpr (List.mem_filter.mpr
          ⟨hp, by simpa using hdoc⟩), Option.isSome_iff_ne_none.mpr hcls⟩),
        rfl, rfl⟩
    · haveI ht : IsTotal ParagraphRec
          (fun p q => p.paragraph_index ≤ q.paragraph_index) :=
        ⟨fun p q => Nat.le_total p.paragraph_index q.paragraph_index⟩
      haveI htr : IsTrans ParagraphRec
          (fun p q => p.paragraph_index ≤ q.paragraph_index) :=
        ⟨fun _ _ _ hab hbc => Nat.le_trans hab hbc⟩
      have hsorted := List.sorted_insertionSort
        (fun p q : ParagraphRec => p.paragraph_index ≤ q.paragraph_index)
        (paras.filter (fun p => p.document_id == a.id))
      have hsub : List.Pairwise
          (fun p q : ParagraphRec => p.paragraph_index ≤ q.paragraph_index)
          (List.filter (fun p => p.applicable_rules.isSome)
            (List.insertionSort
              (fun p q : ParagraphRec => p.paragraph_index ≤ q.paragraph_index)
              (paras.filter (fun p => p.document_id == a.id)))) :=
        List.Pairwise.sublist (List.filter_sublist _) hsorted
      simp only [List.map_map]
      exact List.Pairwise.map _ (fun p q hpq => hpq) hsub

/-- C8 witness: a two-paragraph store where only one paragraph is classified;
the snapshot exists and satisfies the visibility and ordering properties. -/
theorem get_results_partial_visibility_witness :
    ∃ res, get_analysis_results
        [⟨1, "s", none, 1, [], ([], 1, none), 2, 1, "u", "processing", 0, none⟩]
        [⟨10, 1, 0, ['a'], none, none⟩, ⟨11, 1, 1, ['b'], some ["R1"], some (85/100)⟩]
        [] "s" = some res ∧
      ∃ a ∈ [(⟨1, "s", none, 1, [], ([], 1, none), 2, 1, "u", "processing", 0,
          none⟩ : AnalysisRec)], a.session_id = "s" ∧
        (∀ q ∈ res.paragraphs,
          ∃ p ∈ [(⟨10, 1, 0, ['a'], none, none⟩ : ParagraphRec),
              ⟨11, 1, 1, ['b'], some ["R1"], some (85/100)⟩],
            p.document_id = a.id ∧ p.applicable_rules ≠ none ∧
            q.index = p.paragraph_index ∧ q.content = p.content ∧
            q.applicable_rules = p.applicable_rules.getD []) ∧
        (∀ p ∈ [(⟨10, 1, 0, ['a'], none, none⟩ : ParagraphRec),
            ⟨11, 1, 1, ['b'], some ["R1"], some (85/100)⟩],
          p.document_id = a.id → p.applicable_rules ≠ none →
          ∃ q ∈ res.paragraphs, q.index = p.paragraph_index ∧
            q.content = p.content) ∧
        List.Pairwise (· ≤ ·) (res.paragraphs.map ParagraphOut.index) :=
  ⟨_, rfl, get_results_partial_visibility _ _ _ _ _ rfl⟩

/-- C9: for an existing session, the returned `progress_percentage` equals
`paragraphs_processed / total_paragraphs * 100` rounded to one decimal
place, and equals 0 whenever `total_paragraphs` is 0. -/
theorem progress_percentage_spec (analyses : List AnalysisRec)
    (paras : List ParagraphRec) (issues : List IssueRec) (sid : String)
    (res : ResultsOut)
    (h : get_analysis_results analyses paras issues sid = some res) :
    ∃ a ∈ analyses, a.session_id = sid ∧
      res.total_paragraphs = a.total_paragraphs ∧
      res.paragraphs_processed = a.paragraphs_processed ∧
      (0 < res.total_paragraphs →
        res.progress_percentage = round1 ((res.paragraphs_processed : ℚ) /
          (res.total_paragraphs : ℚ) * 100)) ∧
      (res.total_paragraphs = 0 → res.progress_percentage = 0) := by
  rcases hfind : analyses.find? (fun a => a.session_id == sid) with _ | a
  · rw [get_analysis_results, hfind] at h
    exact absurd h (by simp)
  · have ha : a ∈ analyses := List.mem_of_find?_eq_some hfind
    have hasid : a.session_id = sid := by
      have := List.find?_some hfind
      simpa using this
    rw [get_analysis_results, hfind, Option.some_inj] at h
    subst h
    refine ⟨a, ha, hasid, rfl, rfl, ?_, ?_⟩
    · intro hpos
      rw [if_pos hpos]
    · intro hzero
      have hz : a.total_paragraphs = 0 := hzero
      show round1 (if 0 < a.total_paragraphs then
        (a.paragraphs_processed : ℚ) / (a.total_paragraphs : ℚ) * 100
        else 0) = 0
      rw [hz, if_neg (lt_irrefl 0)]
      norm_num [round1]

/-- C9 witness: one processed paragraph out of three gives 33.3 percent, and
a session with zero total paragraphs reports 0 percent. -/
theorem progress_percentage_witness :
    ∃ res, get_analysis_results
        [⟨1, "s", none, 1, [], ([], 1, none), 3, 1, "u", "processing", 0, none⟩]
        [] [] "s" = some res ∧
      ∃ a ∈ [(⟨1, "s", none, 1, [], ([], 1, none), 3, 1, "u", "processing", 0,
          none⟩ : AnalysisRec)], a.session_id = "s" ∧
        res.total_paragraphs = a.total_paragraphs ∧
        res.paragraphs_processed = a.paragraphs_processed ∧
        (0 < res.total_paragraphs →
          res.progress_percentage = round1 ((res.paragraphs_processed : ℚ) /
            (res.total_paragraphs : ℚ) * 100)) ∧
        (res.total_paragraphs = 0 → res.progress_percentage = 0) :=
  ⟨_, rfl, progress_percentage_spec _ _ _ _ _ rfl⟩

/-! ## Submission and result cache
(`analyze_document` lines 27–77, `_process_document_async` lines 79–219,
`_get_cached_analysis` lines 383–392; cache settings from
`app.api.admin.cache_settings`) -/

/-- An `analysis_cache` row: key `doc_analysis:{md5(text:rule_set:date)}`
(modelled by the preimage triple), payload `{'session_id': ...}`, expiry. -/
structure CacheRec where
  cache_key : List Char × Nat × Option Nat
  cached_session_id : String
  expires_at : Nat
deriving DecidableEq

/-- The process-wide mutable cache configuration. -/
structure CacheSettings where
  enabled : Bool
  ttl_hours : Nat
deriving DecidableEq

/-- The database visible to the submission path. -/
structure DBState where
  analyses : List AnalysisRec
  paragraphs : List ParagraphRec
  issues : List IssueRec
  cache : List CacheRec
  next_id : Nat
deriving DecidableEq

/-- Arguments of the scheduled background task
`_process_document_async(document_id, session_id, rule_set_id,
document_hash, paragraphs, effective_date)`. -/
structure TaskArgs where
  document_id : Nat
  session_id : String
  rule_set_id : Nat
  document_hash : List Char × Nat × Option Nat
  paragraphs : List (List Char)
  effective_date : Option Nat
deriving DecidableEq

/-- `_get_cached_analysis`: the cached session id under an unexpired entry
for this key (`expires_at > now`), if any. -/
def getCachedAnalysis (cache : List CacheRec)
    (key : List Char × Nat × Option Nat) (now : Nat) : Option String :=
  (cache.find? (fun c => c.cache_key == key && decide (now < c.expires_at))).map
    (fun c => c.cached_session_id)

/-- `analyze_document`: compute the content hash; unless `force_new` or the
cache is disabled, return a cached session id on a cache hit; otherwise
segment the document, create the session row in `'processing'` status with
`total_paragraphs` = count of qualifying spans, schedule the background task,
and return the fresh session id immediately. -/
def analyze_document (st : DBState) (cfg : CacheSettings) (now : Nat)
    (fresh_session_id : String) (document_text : List Char)
    (rule_set_id : Nat) (user_id : String) (force_new : Bool)
    (effective_date : Option Nat) : String × DBState × Option TaskArgs :=
  let document_hash := (document_text, rule_set_id, effective_date)
  let cached := if !force_new && cfg.enabled then
      getCachedAnalysis st.cache document_hash now
    else none
  match cached with
  | some sid => (sid, st, none)
  | none =>
    let paragraphs := split_into_paragraphs document_text
    let total := (paragraphs.filter qualifies).length
    let analysis : AnalysisRec :=
      { id := st.next_id, session_id := fresh_session_id, title := none
        rule_set_id := rule_set_id, document_text := document_text
        document_hash := document_hash, total_paragraphs := total
        paragraphs_processed := 0, analyzed_by := user_id
        analysis_status := "processing", created_at := now
        completed_at := none }
    (fresh_session_id,
      { st with analyses := st.analyses ++ [analysis]
                next_id := st.next_id + 1 },
      some ⟨st.next_id, fresh_session_id, rule_set_id, document_hash,
        paragraphs, effective_date⟩)

/-- `_process_document_async`, for a run in which no stop request intervenes
and no orchestration-level error occurs: store the qualifying spans as
paragraph rows; if there are none, mark the session completed and return
(without writing a cache entry); otherwise run all batches (the
classification write of unit `j` lands as `oracle j`; a failed unit leaves
`applicable_rules` null), advance the progress counter to the number of
units attempted, mark the session completed, and — if caching is enabled —
write the cache entry mapping the content hash to this session id with the
configured TTL.  Compliance-issue rows, which only append to `issues`, are
elided. -/
def process_document_async (st : DBState) (cfg : CacheSettings) (now : Nat)
    (args : TaskArgs) (oracle : Nat → Option (List String)) : DBState :=
  let stored := storedOf args.paragraphs
  let rows := stored.enum.map (fun jp =>
    { id := st.next_id + jp.1, document_id := args.document_id
      paragraph_index := jp.2.1, content := jp.2.2
      applicable_rules := oracle jp.1
      classification_confidence :=
        (oracle jp.1).map (fun _ => (85 / 100 : ℚ)) : ParagraphRec })
  let st1 := { st with paragraphs := st.paragraphs ++ rows
                       next_id := st.next_id + rows.length }
  if rows.length = 0 then
    { st1 with analyses := st1.analyses.map (fun a =>
        if a.id == args.document_id then
          { a with analysis_status := "completed", completed_at := some now }
        else a) }
  else
    let st2 := { st1 with analyses := st1.analyses.map (fun a =>
        if a.id == args.document_id then
          { a with analysis_status := "completed", completed_at := some now
                   paragraphs_processed := rows.length }
        else a) }
    if cfg.enabled then
      { st2 with cache := st2.cache ++
          [⟨args.document_hash, args.session_id, now + cfg.ttl_hours⟩] }
    else st2

/-- One full submission: submit, then let the scheduled background task (if
any) run to completion.  Returns the session id handed to the caller and the
resulting store. -/
def runSubmission (st : DBState) (cfg : CacheSettings) (now : Nat)
    (fresh_session_id : String) (document_text : List Char)
    (rule_set_id : Nat) (user_id : String) (effective_date : Option Nat)
    (oracle : Nat → Option (List String)) : String × DBState :=
  let r := analyze_document st cfg now fresh_session_id document_text
    rule_set_id user_id false effective_date
  match r.2.2 with
  | some args => (r.1, process_document_async r.2.1 cfg now args oracle)
  | none => (r.1, r.2.1)

/-- C2 counterexample: for a document none of whose spans qualifies
(every span under 50 trimmed chars), the background run takes the
no-paragraph early return and never writes a cache entry, so a second
identical submission (caching enabled, `force_new = False`) misses the
cache, returns a different session id, creates a second session, and
schedules new work. -/
theorem cache_idempotence_counterexample :
    (let s1 := runSubmission ⟨[], [], [], [], 0⟩ ⟨true, 24⟩ 0 "session-1"
        "aa\n\nbb".toList 7 "user" none (fun _ => none)
     let r2 := analyze_document s1.2 ⟨true, 24⟩ 0 "session-2"
        "aa\n\nbb".toList 7 "user" false none
     s1.1 = "session-1" ∧ r2.1 = "session-2" ∧
       r2.2.1.analyses.length = 2 ∧ r2.2.2.isSome = true) :=
  ⟨rfl, rfl, rfl, rfl⟩

/-- C2 (amended): provided the document yields at least one qualifying span
(so the background run reaches its cache write), submitting the same
(document text, rule set, effective date) twice with caching enabled and
`force_new = False` — the second submission after the first one's background
task has completed — returns the same session id both times; the second
submission schedules no work and leaves the store unchanged, and at most one
session (with its paragraph set) is created in total. -/
theorem cache_idempotent_amended (st0 : DBState) (cfg : CacheSettings)
    (now : Nat) (sid1 sid2 user : String) (text : List Char) (rsid : Nat)
    (eff : Option Nat) (oracle : Nat → Option (List String))
    (henabled : cfg.enabled = true) (httl : 0 < cfg.ttl_hours)
    (hqual : totalParagraphs text ≠ 0) :
    (let s1 := runSubmission st0 cfg now sid1 text rsid user eff oracle
     let r2 := analyze_document s1.2 cfg now sid2 text rsid user false eff
     r2.1 = s1.1 ∧ r2.2.2 = none ∧ r2.2.1 = s1.2 ∧
       s1.2.analyses.length ≤ st0.analyses.length + 1 ∧
       s1.2.paragraphs.length ≤ st0.paragraphs.length + totalParagraphs text) := by
  rcases hc : getCachedAnalysis st0.cache (text, rsid, eff) now with _ | sid
  · -- first submission misses the cache and creates the session
    have hstored : (storedOf (split_into_paragraphs text)).length =
        totalParagraphs text := (totalParagraphs_eq_stored text).symm
    have hfindnone : st0.cache.find? (fun c =>
        c.cache_key == (text, rsid, eff) && decide (now < c.expires_at)) =
          none := by
      rcases hfind : st0.cache.find? (fun c =>
          c.cache_key == (text, rsid, eff) && decide (now < c.expires_at))
        with _ | c
      · exact hfind
      · rw [getCachedAnalysis, hfind] at hc
        exact absurd hc (by simp)
    have hprocess : ∀ st1 : DBState,
        (process_document_async st1 cfg now
            ⟨st0.next_id, sid1, rsid, (text, rsid, eff),
              split_into_paragraphs text, eff⟩ oracle).cache =
          st1.cache ++ [⟨(text, rsid, eff), sid1, now + cfg.ttl_hours⟩] ∧
        (process_document_async st1 cfg now
            ⟨st0.next_id, sid1, rsid, (text, rsid, eff),
              split_into_paragraphs text, eff⟩ oracle).analyses.length =
          st1.analyses.length ∧
        (process_document_async st1 cfg now
            ⟨st0.next_id, sid1, rsid, (text, rsid, eff),
              split_into_paragraphs text, eff⟩ oracle).paragraphs.length =
          st1.paragraphs.length + totalParagraphs text := by
      intro st1
      rw [process_document_async]
      simp only [List.length_map, List.enum_length, hstored, henabled,
        if_neg hqual, if_pos rfl]
      simp [List.length_append, hstored]
    simp only [runSubmission]
    set A := analyze_document st0 cfg now sid1 text rsid user false eff
      with hA
    have ha_fst : A.1 = sid1 := by
      rw [hA]
      simp [analyze_document, henabled, hc]
    have ha_cache : A.2.1.cache = st0.cache := by
      rw [hA]
      simp [analyze_document, henabled, hc]
    have ha_alen : A.2.1.analyses.length = st0.analyses.length + 1 := by
      rw [hA]
      simp [analyze_document, henabled, hc]
    have ha_par : A.2.1.paragraphs = st0.paragraphs := by
      rw [hA]
      simp [analyze_document, henabled, hc]
    have ha_task : A.2.2 = some ⟨st0.next_id, sid1, rsid, (text, rsid, eff),
        split_into_paragraphs text, eff⟩ := by
      rw [hA]
      simp [analyze_document, henabled, hc]
    simp only [ha_task]
    obtain ⟨hpc, hpa, hpp⟩ := hprocess A.2.1
    have hlook : getCachedAnalysis
        (process_document_async A.2.1 cfg now
          ⟨st0.next_id, sid1, rsid, (text, rsid, eff),
            split_into_paragraphs text, eff⟩ oracle).cache
        (text, rsid, eff) now = some sid1 := by
      rw [hpc, ha_cache, getCachedAnalysis, List.find?_append, hfindnone]
      have hlt : now < now + cfg.ttl_hours := Nat.lt_add_of_pos_right httl
      simp [List.find?, hlt]
    have h2 : analyze_document
        (process_document_async A.2.1 cfg now
          ⟨st0.next_id, sid1, rsid, (text, rsid, eff),
            split_into_paragraphs text, eff⟩ oracle)
        cfg now sid2 text rsid user false eff =
        (sid1,
          process_document_async A.2.1 cfg now
            ⟨st0.next_id, sid1, rsid, (text, rsid, eff),
              split_into_paragraphs text, eff⟩ oracle, none) := by
      simp [analyze_document, henabled, hlook]
    rw [h2]
    refine ⟨ha_fst.symm, rfl, rfl, ?_, ?_⟩
    · rw [hpa, ha_alen]
    · rw [hpp, ha_par]
  · -- first submission is itself a cache hit; nothing is ever created
    have h1 : ∀ fresh : String,
        analyze_document st0 cfg now fresh text rsid user false eff =
          (sid, st0, none) := by
      intro fresh
      simp [analyze_document, henabled, hc]
    simp only [runSubmission, h1]
    simp

/-- Witness for the amended idempotence at a concrete document with one
qualifying span (60 chars): on an empty store with caching enabled and a
24-hour TTL, the two submissions agree and at most one session is created. -/
theorem cache_idempotent_amended_witness :
    (let s1 := runSubmission ⟨[], [], [], [], 0⟩ ⟨true, 24⟩ 0 "session-1"
        (List.replicate 60 'a') 7 "user" none (fun _ => some [])
     let r2 := analyze_document s1.2 ⟨true, 24⟩ 0 "session-2"
        (List.replicate 60 'a') 7 "user" false none
     r2.1 = s1.1 ∧ r2.2.2 = none ∧ r2.2.1 = s1.2 ∧
       s1.2.analyses.length ≤
         (⟨[], [], [], [], 0⟩ : DBState).analyses.length + 1 ∧
       s1.2.paragraphs.length ≤
         (⟨[], [], [], [], 0⟩ : DBState).paragraphs.length +
           totalParagraphs (List.replicate 60 'a')) :=
  cache_idempotent_amended ⟨[], [], [], [], 0⟩ ⟨true, 24⟩ 0 "session-1"
    "session-2" "user" (List.replicate 60 'a') 7 none (fun _ => some [])
    rfl (by decide) (by decide)
